import Mathlib

/-!
# Verification of the RAMCloud `LogCleaner` (src/LogCleaner.h)

Shallow embedding of the log cleaner's data model, tunables, and per-tick
policy/selection algorithms.  Declarations present in the header
(`LogCleaner.h`) are translated directly from the source; the bodies of the
private worker routines (`doWork`, `doMemoryCleaning`, `getSegmentToCompact`,
`getSegmentsToClean`, `getLiveSortedEntries`) are not part of the source tree,
so those are modelled from the specification, as marked in their doc comments.
-/

namespace RAMCloud

/-! ## Tunables (from `LogCleaner.h`, the `enum` constants) -/

/-- Source constant `enum { POLL_USEC = 10000 }`: idle sleep in microseconds. -/
def POLL_USEC : Nat := 10000

/-- Source constant `enum { MAX_CLEANABLE_MEMORY_UTILIZATION = 98 }`: the maximum in-memory
segment utilization (percent) the cleaner will clean at. -/
def MAX_CLEANABLE_MEMORY_UTILIZATION : Nat := 98

/-- Source constant `enum { MAX_LIVE_SEGMENTS_PER_DISK_PASS = 10 }`: the maximum amount of
live data processed in a single disk cleaning pass, in units of full
segments. -/
def MAX_LIVE_SEGMENTS_PER_DISK_PASS : Nat := 10

/-- Source constant `enum { SURVIVOR_SEGMENTS_TO_RESERVE = 15 }`: survivor segments reserved
with the SegmentManager before a pass. -/
def SURVIVOR_SEGMENTS_TO_RESERVE : Nat := 15

/-- Source constant `enum { MIN_MEMORY_UTILIZATION = 90 }`: minimum memory utilization
(percent) at which in-memory cleaning starts. -/
def MIN_MEMORY_UTILIZATION : Nat := 90

/-- Source constant `enum { MIN_DISK_UTILIZATION = 95 }`: minimum backup disk utilization
(percent) at which disk cleaning starts. -/
def MIN_DISK_UTILIZATION : Nat := 95

/-! ## LiveEntry (from `LogCleaner.h`, class `LiveEntry`) -/

/-- Source class `LiveEntry { LogSegment* segment; uint32_t offset; uint32_t
timestamp; } __attribute__((packed))`.  The `LogSegment*` handle is modelled
as an abstract identifier. -/
structure LiveEntry where
  segment : Nat
  offset : Nat
  timestamp : Nat
deriving DecidableEq, Repr

/-- Size in bytes of a pointer on a 64-bit platform (the `LogSegment*`
field). -/
def sizeofPointer64 : Nat := 8

/-- Size in bytes of a `uint32_t` field. -/
def sizeofUInt32 : Nat := 4

/-- Value of `sizeof(LiveEntry)` on a 64-bit platform: the struct is declared
`__attribute__((packed))`, so its size is the sum of its field sizes,
with no padding: an 8-byte `LogSegment*`, a 4-byte `uint32_t offset`,
and a 4-byte `uint32_t timestamp`. -/
def sizeofLiveEntry : Nat := sizeofPointer64 + sizeofUInt32 + sizeofUInt32

/-- Source comparator `TimestampSorter::operator()` from `LogCleaner.h`:
`return a.timestamp < b.timestamp;`. -/
def timestampSorter (a b : LiveEntry) : Bool :=
  decide (a.timestamp < b.timestamp)

/-! ## Segments (data model of the cleaner's candidates)

`LogSegment` itself lives outside the cleaner header; the cleaner consumes
closed segments from the segment manager.  We model the accounting fields
the cleaner's policy and selectors read (spec §3: identifier, state,
live-byte accounting, seglets held, minimum timestamp, replication state). -/

/-- Segment lifecycle states (spec §3). -/
inductive SegmentState where
  | OPEN
  | CLOSED
  | CLEANABLE
  | FREEABLE
deriving DecidableEq, Repr

/-- A log segment as seen by the cleaner. -/
structure LogSegment where
  id : Nat
  state : SegmentState
  liveBytes : Nat
  segletsHeld : Nat
  minTimestamp : Nat
  replicationFinished : Bool
deriving DecidableEq, Repr

/-- Ceiling division on naturals, `ceil(a / b)`. -/
def ceilDiv (a b : Nat) : Nat := (a + b - 1) / b

/-! ## Generic comparison sort

`std::sort` applied with a strict-weak-order comparator; modelled as an
insertion sort (the spec does not require stability). -/

/-- Insert `a` into `l` in front of the first element `b` with `le a b`. -/
def insertSorted (le : α → α → Bool) (a : α) : List α → List α
  | [] => [a]
  | b :: t => if le a b then a :: b :: t else b :: insertSorted le a t

/-- Comparison sort used to model `std::sort` calls. -/
def sortBy (le : α → α → Bool) : List α → List α
  | [] => []
  | a :: t => insertSorted le a (sortBy le t)

theorem insertSorted_perm (le : α → α → Bool) (a : α) (l : List α) :
    List.Perm (insertSorted le a l) (a :: l) := by
  induction l with
  | nil => simp [insertSorted]
  | cons b t ih =>
    simp only [insertSorted]
    by_cases h : le a b
    · simp [h]
    · simp only [h, if_neg, Bool.false_eq_true, if_false]
      exact (List.Perm.cons b ih).trans (List.Perm.swap a b t)

theorem sortBy_perm (le : α → α → Bool) (l : List α) :
    List.Perm (sortBy le l) l := by
  induction l with
  | nil => simp [sortBy]
  | cons a t ih =>
    exact (insertSorted_perm le a (sortBy le t)).trans (List.Perm.cons a ih)

theorem insertSorted_pairwise (le : α → α → Bool)
    (total : ∀ a b, le a b = true ∨ le b a = true)
    (trans : ∀ a b c, le a b = true → le b c = true → le a c = true)
    (a : α) (l : List α) (h : l.Pairwise (fun x y => le x y = true)) :
    (insertSorted le a l).Pairwise (fun x y => le x y = true) := by
  induction l with
  | nil => simp [insertSorted]
  | cons b t ih =>
    rcases h with _ | ⟨hb, ht⟩
    by_cases hab : le a b = true
    · simp only [insertSorted, hab, if_true]
      refine List.Pairwise.cons (fun x hx => ?_) (List.Pairwise.cons hb ht)
      rcases List.mem_cons.mp hx with hx2 | hx2
      · subst hx2; exact hab
      · exact trans a b x hab (hb x hx2)
    · have hba : le b a = true := (total a b).resolve_left hab
      simp only [insertSorted, hab, if_false]
      refine List.Pairwise.cons (fun x hx => ?_) (ih ht)
      rcases List.mem_cons.mp ((insertSorted_perm le a t).mem_iff.mp hx)
        with hx2 | hx2
      · subst hx2; exact hba
      · exact hb x hx2

theorem sortBy_pairwise (le : α → α → Bool)
    (total : ∀ a b, le a b = true ∨ le b a = true)
    (trans : ∀ a b c, le a b = true → le b c = true → le a c = true)
    (l : List α) :
    (sortBy le l).Pairwise (fun x y => le x y = true) := by
  induction l with
  | nil => simp [sortBy]
  | cons a t ih => exact insertSorted_pairwise le total trans a (sortBy le t) ih

/-! ## Write cost -/

/-- Write cost of a cleaning pass (bytes written / bytes freed, spec §4.1);
the infinite value is reported when memory cleaning could select nothing. -/
inductive WCost where
  | fin (q : ℚ)
  | inf
deriving DecidableEq

/-- Modelled from the spec: comparison of a pass's write cost with the
`writeCostThreshold` tunable (missing body of `doWork`); an infinite write
cost exceeds every threshold. -/
def WCost.exceeds : WCost → ℚ → Bool
  | .inf, _ => true
  | .fin q, t => decide (t < q)

/-! ## Policy engine (missing body of `doWork`) -/

/-- Inputs the policy engine reads on one tick of the cleaner's work loop
(spec §4.1): the exit flag, the two utilization percentages obtained from the
segment manager, the last memory pass's write cost, the stored threshold, and
whether there are tombstones that cannot be released without disk cleaning. -/
structure CleanerTick where
  threadShouldExit : Bool
  diskUtilization : Nat
  memoryUtilization : Nat
  lastMemoryWriteCost : WCost
  writeCostThreshold : ℚ
  tombstonesUnreleasable : Bool

/-- Outcome of one tick of the cleaner's work loop. -/
inductive TickAction where
  | terminate
  | runDiskCleaning
  | runMemoryCleaning
  | sleepMicros (usec : Nat)
deriving DecidableEq, Repr

/-- Modelled from the spec: the body of `doWork` is not in the source tree;
this is the decision table of spec §4.1, evaluated top to bottom. -/
def doWork (s : CleanerTick) : TickAction :=
  if s.threadShouldExit then .terminate
  else if MIN_DISK_UTILIZATION ≤ s.diskUtilization then .runDiskCleaning
  else if s.lastMemoryWriteCost.exceeds s.writeCostThreshold
          && s.tombstonesUnreleasable then .runDiskCleaning
  else if MIN_MEMORY_UTILIZATION ≤ s.memoryUtilization then .runMemoryCleaning
  else .sleepMicros POLL_USEC

/-! ## Memory-cleaning selection (missing bodies of `getSegmentToCompact`
and `doMemoryCleaning`) -/

/-- Seglets that compacting a segment would free:
`segletsHeld - ceil(liveBytes / segletSize)` (spec §4.2). -/
def freeableSeglets (segletSize : Nat) (seg : LogSegment) : Nat :=
  seg.segletsHeld - ceilDiv seg.liveBytes segletSize

/-- Memory utilization of a segment is at most
`MAX_CLEANABLE_MEMORY_UTILIZATION` percent:
`100 * liveBytes ≤ 98 * (segletsHeld * segletSize)`. -/
def memUtilOk (segletSize : Nat) (seg : LogSegment) : Bool :=
  decide (100 * seg.liveBytes ≤
    MAX_CLEANABLE_MEMORY_UTILIZATION * (seg.segletsHeld * segletSize))

/-- Candidate `c` strictly beats the incumbent `a` for memory compaction:
more freeable seglets, or equally many and a lower segment id (spec §4.2
tie-break). -/
def compactBetter (segletSize : Nat) (a c : LogSegment) : Bool :=
  decide (freeableSeglets segletSize a < freeableSeglets segletSize c ∨
    (freeableSeglets segletSize c = freeableSeglets segletSize a ∧ c.id < a.id))

/-- Scan of the candidate list keeping the best segment for compaction. -/
def pickCompact (segletSize : Nat) : List LogSegment → Option LogSegment
  | [] => none
  | c :: rest =>
    match pickCompact segletSize rest with
    | none => some c
    | some a => if compactBetter segletSize a c then some c else some a

/-- Modelled from the spec: the body of `getSegmentToCompact` is not in the
source tree; spec §4.2 chooses, among candidates whose memory utilization is
at most `MAX_CLEANABLE_MEMORY_UTILIZATION`, the one maximizing
`freeableSeglets` with ties broken by lower segment id, and returns none when
no candidate yields at least one freeable seglet. -/
def getSegmentToCompact (segletSize : Nat)
    (candidates : List LogSegment) : Option LogSegment :=
  match pickCompact segletSize (candidates.filter (memUtilOk segletSize)) with
  | none => none
  | some b => if 1 ≤ freeableSeglets segletSize b then some b else none

/-- Modelled from the spec: write cost of a memory-compaction pass, bytes
written during the pass divided by bytes freed (spec §4.1). -/
def memoryPassWriteCost (segletSize : Nat) (seg : LogSegment) : ℚ :=
  (seg.liveBytes : ℚ) / ((freeableSeglets segletSize seg * segletSize : Nat) : ℚ)

/-- Modelled from the spec: the body of `doMemoryCleaning` is not in the
source tree; it compacts the selected segment and reports the pass's write
cost, infinite when no segment could be selected so the policy switches to
disk cleaning. -/
def doMemoryCleaning (segletSize : Nat)
    (candidates : List LogSegment) : WCost × Option LogSegment :=
  match getSegmentToCompact segletSize candidates with
  | none => (WCost.inf, none)
  | some seg => (WCost.fin (memoryPassWriteCost segletSize seg), some seg)

/-! ## Disk-cleaning selection (missing body of `getSegmentsToClean`) -/

/-- Live-byte fraction `u` of a segment, relative to a full segment
(spec §4.2). -/
def liveFraction (segmentSize : Nat) (seg : LogSegment) : ℚ :=
  (seg.liveBytes : ℚ) / (segmentSize : ℚ)

/-- Cost/benefit score `((1 - u) * age) / (1 + u)` with
`age = now - minTimestamp` (spec §4.2). -/
def costBenefitScore (now segmentSize : Nat) (seg : LogSegment) : ℚ :=
  ((1 - liveFraction segmentSize seg) * ((now - seg.minTimestamp : Nat) : ℚ)) /
    (1 + liveFraction segmentSize seg)

/-- A segment the disk-pass selector may choose: not still OPEN, and its
replication state is finished (spec §4.2). -/
def diskEligible (seg : LogSegment) : Bool :=
  decide (seg.state ≠ SegmentState.OPEN) && seg.replicationFinished

/-- Comparator ordering segments by descending cost/benefit score. -/
def scoreGe (now segmentSize : Nat) (a b : LogSegment) : Bool :=
  decide (costBenefitScore now segmentSize b ≤ costBenefitScore now segmentSize a)

/-- Greedy selection down the ranked list, accumulating live bytes and
stopping before the accumulated live byte count would exceed the budget. -/
def greedyTake (budget : Nat) : Nat → List LogSegment → List LogSegment
  | _, [] => []
  | total, c :: rest =>
    if total + c.liveBytes ≤ budget then
      c :: greedyTake budget (total + c.liveBytes) rest
    else []

/-- Modelled from the spec: the body of `getSegmentsToClean` is not in the
source tree; spec §4.2 ranks the eligible candidates by descending
cost/benefit score and selects the top-scoring segments greedily up to a
live-byte budget of `MAX_LIVE_SEGMENTS_PER_DISK_PASS` full segments. -/
def getSegmentsToClean (now segmentSize : Nat)
    (candidates : List LogSegment) : List LogSegment :=
  greedyTake (MAX_LIVE_SEGMENTS_PER_DISK_PASS * segmentSize) 0
    (sortBy (scoreGe now segmentSize) (candidates.filter diskEligible))

/-- Total live bytes over a list of segments. -/
def totalLiveBytes (l : List LogSegment) : Nat :=
  (l.map LogSegment.liveBytes).sum

/-! ## Relocation (missing body of `getLiveSortedEntries`) -/

/-- Modelled from the spec: the body of `getLiveSortedEntries` is not in the
source tree; spec §4.3 step 2 sorts the collected live entries by timestamp
ascending using the header's `TimestampSorter` comparator (`std::sort` with a
strict comparator: the result has no later entry strictly below an earlier
one). -/
def getLiveSortedEntries (collected : List LiveEntry) : List LiveEntry :=
  sortBy (fun a b => !timestampSorter b a) collected

/-! ## Pass conservation accounting (spec §3 I1 / §8 P1) -/

/-- Modelled from the spec: seglets retained by the survivor segments of a
completed pass; survivors pack the pass's live bytes densely and any trailing
unused seglets are returned to the allocator (spec §4.3 step 5), so the pass
retains `ceil(totalLiveBytes / segletSize)` seglets. -/
def survivorSegletsRetained (segletSize : Nat) (inputs : List LogSegment) : Nat :=
  ceilDiv (totalLiveBytes inputs) segletSize

/-- Seglets freed by retiring a pass's input segments: every seglet they
held. -/
def segletsFreed (inputs : List LogSegment) : Nat :=
  (inputs.map LogSegment.segletsHeld).sum

/-! ## The LogCleaner object -/

/-- State held by a `LogCleaner` (the data members of the class that are not
references to collaborators or the thread handle). -/
structure LogCleaner where
  writeCostThreshold : ℚ
  segletSize : Nat
  threadShouldExit : Bool
  candidates : List LogSegment
deriving DecidableEq

/-- Calls a cleaner method could make to its collaborators. -/
inductive CollaboratorCall where
  | segmentManagerCall
  | replicaManagerCall
  | entryHandlersCall
deriving DecidableEq, Repr

/-- Constructor of `LogCleaner` (header line 58-62): the threshold parameter
is declared `uint32_t writeCostThreshold`, and the member
`double writeCostThreshold` stores its value, which a double represents
exactly.  The collaborator references are borrowed and carry no data the
cleaner reads, so they are not modelled. -/
def LogCleaner.make (writeCostThreshold : Nat) (segletSize : Nat) : LogCleaner :=
  { writeCostThreshold := ((writeCostThreshold % 2 ^ 32 : Nat) : ℚ)
    segletSize := segletSize
    threadShouldExit := false
    candidates := [] }

/-- Method `void statistics() const { }` from the header: the body is empty
and the `LogStatistics` out-parameter is commented out.  The embedding returns
the (unchanged) cleaner, the list of collaborator calls made (none), and the
`void` return value. -/
def LogCleaner.statistics (c : LogCleaner) :
    LogCleaner × List CollaboratorCall × Unit :=
  (c, [], ())

/-! ## Theorems -/

/-- C7: the LiveEntry record is exactly 16 bytes on a 64-bit platform —
an 8-byte segment handle plus a 4-byte offset plus a 4-byte timestamp,
packed with no padding — so the source's `static_assert(sizeof(LiveEntry)
== 16)` holds. -/
theorem liveEntry_is_16_bytes : sizeofLiveEntry = 16 := rfl

/-- C10: statistics() is a const member function with an empty body: it
leaves every field of the LogCleaner unchanged and makes no call to the
segment manager, replica manager, or entry handler. -/
theorem statistics_frame (c : LogCleaner) :
    c.statistics.1.writeCostThreshold = c.writeCostThreshold ∧
    c.statistics.1.segletSize = c.segletSize ∧
    c.statistics.1.threadShouldExit = c.threadShouldExit ∧
    c.statistics.1.candidates = c.candidates ∧
    c.statistics.2.1 = ([] : List CollaboratorCall) :=
  ⟨rfl, rfl, rfl, rfl, rfl⟩

/-- C9 (counterexample): statistics() does not return a Stats value of
counters: at the concrete cleaner constructed with threshold 2 the call
returns the void value and an output identical to that of a different
cleaner, so the return carries no data about the cleaner at all. -/
theorem statistics_returns_void_counterexample :
    (LogCleaner.make 2 65536).statistics.2.2 = () ∧
    (LogCleaner.make 2 65536).statistics.2 =
      (LogCleaner.make 7 65536).statistics.2 ∧
    LogCleaner.make 2 65536 ≠ LogCleaner.make 7 65536 := by
  refine ⟨rfl, rfl, ?_⟩
  intro h
  have h2 := congrArg LogCleaner.writeCostThreshold h
  simp [LogCleaner.make] at h2

/-- C9 (amended): in this snapshot statistics() returns nothing — the method
body is empty and the LogStatistics out-parameter is commented out — so its
return value is the same (void) value for every cleaner state and conveys no
counters. -/
theorem statistics_returns_nothing (c₁ c₂ : LogCleaner) :
    c₁.statistics.2 = c₂.statistics.2 := rfl

/-- C1: the per-tick policy evaluates its conditions in fixed priority order:
exit flag first, then disk utilization against MIN_DISK_UTILIZATION (95),
then the write-cost escalation rule, then memory utilization against
MIN_MEMORY_UTILIZATION (90), else sleep POLL_USEC (10000 µs); in particular
whenever the thread is not exiting and diskUtilization ≥ 95, disk cleaning
runs regardless of memory utilization. -/
theorem doWork_policy_order (s : CleanerTick) :
    (s.threadShouldExit = true → doWork s = TickAction.terminate) ∧
    (s.threadShouldExit = false → MIN_DISK_UTILIZATION ≤ s.diskUtilization →
      doWork s = TickAction.runDiskCleaning) ∧
    (s.threadShouldExit = false → s.diskUtilization < MIN_DISK_UTILIZATION →
      s.lastMemoryWriteCost.exceeds s.writeCostThreshold = true →
      s.tombstonesUnreleasable = true →
      doWork s = TickAction.runDiskCleaning) ∧
    (s.threadShouldExit = false → s.diskUtilization < MIN_DISK_UTILIZATION →
      (s.lastMemoryWriteCost.exceeds s.writeCostThreshold = false ∨
        s.tombstonesUnreleasable = false) →
      MIN_MEMORY_UTILIZATION ≤ s.memoryUtilization →
      doWork s = TickAction.runMemoryCleaning) ∧
    (s.threadShouldExit = false → s.diskUtilization < MIN_DISK_UTILIZATION →
      (s.lastMemoryWriteCost.exceeds s.writeCostThreshold = false ∨
        s.tombstonesUnreleasable = false) →
      s.memoryUtilization < MIN_MEMORY_UTILIZATION →
      doWork s = TickAction.sleepMicros POLL_USEC) := by
  refine ⟨?_, ?_, ?_, ?_, ?_⟩
  · intro h; simp [doWork, h]
  · intro h hd; simp [doWork, h, hd]
  · intro h hd hw ht
    simp [doWork, h, hw, ht, Nat.not_le.mpr hd]
  · intro h hd hor hm
    rcases hor with hw | ht
    · simp [doWork, h, hw, hm, Nat.not_le.mpr hd]
    · simp [doWork, h, ht, hm, Nat.not_le.mpr hd]
  · intro h hd hor hm
    rcases hor with hw | ht
    · simp [doWork, h, hw, Nat.not_le.mpr hd, Nat.not_le.mpr hm]
    · simp [doWork, h, ht, Nat.not_le.mpr hd, Nat.not_le.mpr hm]

/-- C1 (witness): on a concrete tick with the exit flag clear, disk
utilization 95 and memory utilization only 10, the policy runs disk
cleaning. -/
theorem doWork_policy_order_witness :
    doWork { threadShouldExit := false, diskUtilization := 95,
             memoryUtilization := 10, lastMemoryWriteCost := WCost.fin 1,
             writeCostThreshold := 2, tombstonesUnreleasable := false } =
      TickAction.runDiskCleaning :=
  (doWork_policy_order _).2.1 rfl (by decide)

/-- C5: getLiveSortedEntries returns a permutation of the collected live
entries that is non-decreasing in the cached timestamp field, so the
survivor stream of a disk pass is emitted in non-decreasing timestamp
order. -/
theorem getLiveSortedEntries_perm_sorted (l : List LiveEntry) :
    List.Perm (getLiveSortedEntries l) l ∧
    (getLiveSortedEntries l).Pairwise
      (fun a b => a.timestamp ≤ b.timestamp) := by
  constructor
  · exact sortBy_perm _ l
  · have hp := sortBy_pairwise (fun a b : LiveEntry => !timestampSorter b a)
      (by
        intro a b
        simp only [timestampSorter, Bool.not_eq_true', decide_eq_false_iff_not]
        omega)
      (by
        intro a b c h1 h2
        simp only [timestampSorter, Bool.not_eq_true',
          decide_eq_false_iff_not] at h1 h2 ⊢
        omega) l
    exact hp.imp (fun {a b} h => by
      simp only [timestampSorter, Bool.not_eq_true',
        decide_eq_false_iff_not] at h
      omega)

/-- C8 (counterexample): the constructor's writeCostThreshold parameter is
declared `uint32_t`, so the tunable cannot be an arbitrary real ≥ 1.0: no
constructor argument makes the stored threshold equal 3/2, a real ≥ 1.0. -/
theorem writeCostThreshold_not_any_real_counterexample :
    ¬ ∃ n : Nat, (LogCleaner.make n 65536).writeCostThreshold = (3 : ℚ) / 2 := by
  rintro ⟨n, h⟩
  simp only [LogCleaner.make] at h
  have h2 : ((2 * (n % 2 ^ 32) : Nat) : ℚ) = ((3 : Nat) : ℚ) := by
    push_cast
    push_cast at h
    linarith
  have h3 : 2 * (n % 2 ^ 32) = 3 := Nat.cast_injective h2
  omega

/-- C8 (amended): the writeCostThreshold tunable is supplied as a 32-bit
unsigned integer; the constructed cleaner stores exactly the supplied value
(exactly representable as a double), and the policy switches from memory to
disk cleaning when the last memory pass's write cost exceeds the stored
threshold and there are tombstones unreleasable without disk cleaning. -/
theorem writeCostThreshold_stored_and_switch (n sz : Nat) (hn : n < 2 ^ 32)
    (s : CleanerTick) (hExit : s.threadShouldExit = false)
    (hDisk : s.diskUtilization < MIN_DISK_UTILIZATION)
    (hWc : s.lastMemoryWriteCost.exceeds s.writeCostThreshold = true)
    (hTomb : s.tombstonesUnreleasable = true) :
    (LogCleaner.make n sz).writeCostThreshold = (n : ℚ) ∧
    doWork s = TickAction.runDiskCleaning := by
  constructor
  · simp only [LogCleaner.make, Nat.cast_inj]
    omega
  · simp [doWork, hExit, hWc, hTomb, Nat.not_le.mpr hDisk]

/-- C8 (witness): constructing with threshold 2 stores exactly 2, and a
concrete tick with write cost 7/2 > 2, tombstone pressure, and disk
utilization only 60 runs disk cleaning. -/
theorem writeCostThreshold_stored_and_switch_witness :
    (LogCleaner.make 2 65536).writeCostThreshold = ((2 : Nat) : ℚ) ∧
    doWork { threadShouldExit := false, diskUtilization := 60,
             memoryUtilization := 50,
             lastMemoryWriteCost := WCost.fin ((7 : ℚ) / 2),
             writeCostThreshold := 2, tombstonesUnreleasable := true } =
      TickAction.runDiskCleaning :=
  writeCostThreshold_stored_and_switch 2 65536 (by norm_num) _ rfl (by decide)
    (by norm_num [WCost.exceeds]) rfl

/-- Invariant of the greedy selection: if the running total is within the
budget, it stays within the budget over the taken segments. -/
theorem greedyTake_totalLiveBytes_le (budget : Nat) :
    ∀ (l : List LogSegment) (t : Nat), t ≤ budget →
      t + totalLiveBytes (greedyTake budget t l) ≤ budget := by
  intro l
  induction l with
  | nil => intro t ht; simpa [greedyTake, totalLiveBytes] using ht
  | cons c rest ih =>
    intro t ht
    by_cases hc : t + c.liveBytes ≤ budget
    · have h2 := ih (t + c.liveBytes) hc
      simp only [greedyTake, hc, if_true, totalLiveBytes, List.map_cons,
        List.sum_cons] at *
      omega
    · simp only [greedyTake, hc, if_false, totalLiveBytes, List.map_nil,
        List.sum_nil]
      omega

/-- C4: the total live bytes of the segments selected for a disk-cleaning
pass never exceeds MAX_LIVE_SEGMENTS_PER_DISK_PASS (10) times the segment
size: the greedy selection stops before the accumulated live byte count
would exceed that product. -/
theorem diskPass_live_bytes_bounded (now segmentSize : Nat)
    (candidates : List LogSegment) :
    totalLiveBytes (getSegmentsToClean now segmentSize candidates) ≤
      MAX_LIVE_SEGMENTS_PER_DISK_PASS * segmentSize := by
  have h := greedyTake_totalLiveBytes_le
    (MAX_LIVE_SEGMENTS_PER_DISK_PASS * segmentSize)
    (sortBy (scoreGe now segmentSize) (candidates.filter diskEligible)) 0
    (Nat.zero_le _)
  simpa [getSegmentsToClean] using h

/-- Characterization of ceiling division: for a positive divisor,
`ceilDiv x s ≤ m` exactly when `x ≤ m * s`. -/
theorem ceilDiv_le_iff (s x m : Nat) (hs : 0 < s) :
    ceilDiv x s ≤ m ↔ x ≤ m * s := by
  unfold ceilDiv
  rw [Nat.div_le_iff_le_mul_add_pred hs, Nat.mul_comm s m]
  omega

/-- Guarded segments' live bytes fit in the seglets they hold: summed over a
pass's inputs. -/
theorem totalLiveBytes_le_freed (segletSize : Nat) :
    ∀ l : List LogSegment, (∀ seg ∈ l, memUtilOk segletSize seg = true) →
      totalLiveBytes l ≤ segletsFreed l * segletSize := by
  intro l
  induction l with
  | nil => intro _; simp [totalLiveBytes, segletsFreed]
  | cons seg rest ih =>
    intro h
    have hseg := h seg (List.mem_cons_self seg rest)
    simp only [memUtilOk, MAX_CLEANABLE_MEMORY_UTILIZATION,
      decide_eq_true_eq] at hseg
    have hrest := ih (fun x hx => h x (List.mem_cons_of_mem seg hx))
    simp only [totalLiveBytes, segletsFreed, List.map_cons,
      List.sum_cons] at hrest ⊢
    have hone : seg.liveBytes ≤ seg.segletsHeld * segletSize := by omega
    calc seg.liveBytes + (rest.map LogSegment.liveBytes).sum
        ≤ seg.segletsHeld * segletSize +
          (rest.map LogSegment.segletsHeld).sum * segletSize :=
          Nat.add_le_add hone hrest
      _ = (seg.segletsHeld + (rest.map LogSegment.segletsHeld).sum) *
          segletSize := by ring

/-- C6: for every completed pass whose input segments all pass the
MAX_CLEANABLE_MEMORY_UTILIZATION (98) guard, the seglets retained by the
pass's survivor segments are at most the seglets freed by retiring the
input segments. -/
theorem pass_conservation (segletSize : Nat) (inputs : List LogSegment)
    (hsz : 0 < segletSize)
    (hguard : ∀ seg ∈ inputs, memUtilOk segletSize seg = true) :
    survivorSegletsRetained segletSize inputs ≤ segletsFreed inputs := by
  rw [survivorSegletsRetained, ceilDiv_le_iff _ _ _ hsz]
  exact totalLiveBytes_le_freed segletSize inputs hguard

/-- C6 (witness): a concrete one-segment pass at seglet size 64 with 50 live
bytes over 2 held seglets passes the guard and retains 1 seglet while
freeing 2. -/
theorem pass_conservation_witness :
    survivorSegletsRetained 64
        [{ id := 1, state := SegmentState.CLEANABLE, liveBytes := 50,
           segletsHeld := 2, minTimestamp := 5, replicationFinished := true }] ≤
      segletsFreed
        [{ id := 1, state := SegmentState.CLEANABLE, liveBytes := 50,
           segletsHeld := 2, minTimestamp := 5, replicationFinished := true }] :=
  pass_conservation 64 _ (by decide) (by decide)

theorem pickCompact_eq_none (segletSize : Nat) (l : List LogSegment)
    (h : pickCompact segletSize l = none) : l = [] := by
  cases l with
  | nil => rfl
  | cons c rest =>
    exfalso
    cases hp : pickCompact segletSize rest with
    | none => simp [pickCompact, hp] at h
    | some a =>
      simp only [pickCompact, hp] at h
      by_cases hb : compactBetter segletSize a c = true <;> simp [hb] at h

theorem pickCompact_mem (segletSize : Nat) :
    ∀ (l : List LogSegment) (b : LogSegment),
      pickCompact segletSize l = some b → b ∈ l := by
  intro l
  induction l with
  | nil => intro b h; simp [pickCompact] at h
  | cons c rest ih =>
    intro b h
    cases hp : pickCompact segletSize rest with
    | none =>
      simp only [pickCompact, hp, Option.some.injEq] at h
      subst h
      exact List.mem_cons_self c rest
    | some a =>
      simp only [pickCompact, hp] at h
      by_cases hb : compactBetter segletSize a c = true
      · rw [if_pos hb] at h
        injection h with h2
        subst h2
        exact List.mem_cons_self c rest
      · rw [if_neg hb] at h
        injection h with h2
        subst h2
        exact List.mem_cons_of_mem c (ih _ hp)

theorem pickCompact_max (segletSize : Nat) :
    ∀ (l : List LogSegment) (b : LogSegment),
      pickCompact segletSize l = some b →
      ∀ x ∈ l, freeableSeglets segletSize x < freeableSeglets segletSize b ∨
        (freeableSeglets segletSize x = freeableSeglets segletSize b ∧
          b.id ≤ x.id) := by
  intro l
  induction l with
  | nil => intro b h; simp [pickCompact] at h
  | cons c rest ih =>
    intro b h x hx
    cases hp : pickCompact segletSize rest with
    | none =>
      have hrest : rest = [] := pickCompact_eq_none segletSize rest hp
      subst hrest
      simp only [pickCompact, Option.some.injEq] at h
      subst h
      rcases List.mem_cons.mp hx with rfl | hx2
      · right; exact ⟨rfl, Nat.le_refl _⟩
      · simp at hx2
    | some a =>
      simp only [pickCompact, hp] at h
      rcases List.mem_cons.mp hx with rfl | hx2
      · by_cases hb : compactBetter segletSize a x = true
        · rw [if_pos hb] at h
          injection h with h2
          subst h2
          right; exact ⟨rfl, Nat.le_refl _⟩
        · rw [if_neg hb] at h
          injection h with h2
          subst h2
          simp only [compactBetter, decide_eq_true_eq] at hb
          omega
      · have hax := ih a hp x hx2
        by_cases hb : compactBetter segletSize a c = true
        · rw [if_pos hb] at h
          injection h with h2
          subst h2
          simp only [compactBetter, decide_eq_true_eq] at hb
          omega
        · rw [if_neg hb] at h
          injection h with h2
          subst h2
          exact hax

/-- C2: memory cleaning selects, among candidates whose memory utilization is
at most MAX_CLEANABLE_MEMORY_UTILIZATION (98), a segment maximizing
freeableSeglets = segletsHeld − ceil(liveBytes / segletSize), ties broken by
lower segment id; a maximizing candidate exists whenever some eligible
candidate has a freeable seglet, and when no eligible candidate yields at
least one freeable seglet the selection is none and the memory pass reports
an infinite write cost so the policy switches to disk cleaning. -/
theorem getSegmentToCompact_correct (segletSize : Nat) (cs : List LogSegment) :
    (∀ b, getSegmentToCompact segletSize cs = some b →
      b ∈ cs ∧ memUtilOk segletSize b = true ∧
      1 ≤ freeableSeglets segletSize b ∧
      ∀ c ∈ cs, memUtilOk segletSize c = true →
        freeableSeglets segletSize c < freeableSeglets segletSize b ∨
          (freeableSeglets segletSize c = freeableSeglets segletSize b ∧
            b.id ≤ c.id)) ∧
    ((∃ c ∈ cs, memUtilOk segletSize c = true ∧
        1 ≤ freeableSeglets segletSize c) →
      ∃ b, getSegmentToCompact segletSize cs = some b) ∧
    ((∀ c ∈ cs, memUtilOk segletSize c = true →
        freeableSeglets segletSize c = 0) →
      getSegmentToCompact segletSize cs = none ∧
      (doMemoryCleaning segletSize cs).1 = WCost.inf) := by
  refine ⟨?_, ?_, ?_⟩
  · intro b h
    cases hp : pickCompact segletSize (cs.filter (memUtilOk segletSize)) with
    | none => simp [getSegmentToCompact, hp] at h
    | some a =>
      simp only [getSegmentToCompact, hp] at h
      by_cases hf : 1 ≤ freeableSeglets segletSize a
      · rw [if_pos hf] at h
        injection h with h2
        subst h2
        have hmem := pickCompact_mem segletSize _ _ hp
        rw [List.mem_filter] at hmem
        refine ⟨hmem.1, hmem.2, hf, ?_⟩
        intro c hc hcok
        exact pickCompact_max segletSize _ _ hp c
          (List.mem_filter.mpr ⟨hc, hcok⟩)
      · rw [if_neg hf] at h
        cases h
  · rintro ⟨c, hc, hcok, hcfree⟩
    cases hp : pickCompact segletSize (cs.filter (memUtilOk segletSize)) with
    | none =>
      have hnil := pickCompact_eq_none segletSize _ hp
      have hcf : c ∈ cs.filter (memUtilOk segletSize) :=
        List.mem_filter.mpr ⟨hc, hcok⟩
      rw [hnil] at hcf
      cases hcf
    | some a =>
      have hmax := pickCompact_max segletSize _ a hp c
        (List.mem_filter.mpr ⟨hc, hcok⟩)
      have hfa : 1 ≤ freeableSeglets segletSize a := by omega
      exact ⟨a, by simp [getSegmentToCompact, hp, hfa]⟩
  · intro hall
    have hnone : getSegmentToCompact segletSize cs = none := by
      cases hp : pickCompact segletSize (cs.filter (memUtilOk segletSize)) with
      | none => simp [getSegmentToCompact, hp]
      | some a =>
        have hmem := pickCompact_mem segletSize _ a hp
        rw [List.mem_filter] at hmem
        have hz : freeableSeglets segletSize a = 0 := hall a hmem.1 hmem.2
        simp [getSegmentToCompact, hp, hz]
    exact ⟨hnone, by simp [doMemoryCleaning, hnone]⟩

/-- C2 (witness): one concrete candidate at seglet size 64 with 100 live
bytes over 2 held seglets passes the utilization guard but frees no seglet,
so the selector returns none and the memory pass reports write cost ∞. -/
theorem getSegmentToCompact_correct_witness :
    getSegmentToCompact 64
        [{ id := 1, state := SegmentState.CLEANABLE, liveBytes := 100,
           segletsHeld := 2, minTimestamp := 0, replicationFinished := true }] =
      none ∧
    (doMemoryCleaning 64
        [{ id := 1, state := SegmentState.CLEANABLE, liveBytes := 100,
           segletsHeld := 2, minTimestamp := 0,
           replicationFinished := true }]).1 = WCost.inf :=
  (getSegmentToCompact_correct 64
    [{ id := 1, state := SegmentState.CLEANABLE, liveBytes := 100,
       segletsHeld := 2, minTimestamp := 0,
       replicationFinished := true }]).2.2 (by decide)

theorem greedyTake_append (budget : Nat) :
    ∀ (l : List LogSegment) (t : Nat),
      ∃ rest, l = greedyTake budget t l ++ rest := by
  intro l
  induction l with
  | nil => intro t; exact ⟨[], rfl⟩
  | cons c r ih =>
    intro t
    by_cases hc : t + c.liveBytes ≤ budget
    · obtain ⟨rest, hr⟩ := ih (t + c.liveBytes)
      refine ⟨rest, ?_⟩
      simp only [greedyTake]
      rw [if_pos hc, List.cons_append]
      exact congrArg (List.cons c) hr
    · refine ⟨c :: r, ?_⟩
      simp only [greedyTake]
      rw [if_neg hc, List.nil_append]

/-- C3: disk-cleaning selection never chooses a segment that is still OPEN or
whose replication state is unfinished, and it takes candidates greedily in
descending order of the cost/benefit score ((1 − u) · age) / (1 + u): its
output is score-non-increasing and is an initial run of the candidates
ranked by descending score. -/
theorem getSegmentsToClean_correct (now segmentSize : Nat)
    (cs : List LogSegment) :
    (∀ s ∈ getSegmentsToClean now segmentSize cs,
      s.state ≠ SegmentState.OPEN ∧ s.replicationFinished = true) ∧
    (getSegmentsToClean now segmentSize cs).Pairwise
      (fun a b => costBenefitScore now segmentSize b ≤
        costBenefitScore now segmentSize a) ∧
    (∃ rest, sortBy (scoreGe now segmentSize) (cs.filter diskEligible) =
      getSegmentsToClean now segmentSize cs ++ rest) := by
  obtain ⟨rest, hr⟩ := greedyTake_append
    (MAX_LIVE_SEGMENTS_PER_DISK_PASS * segmentSize)
    (sortBy (scoreGe now segmentSize) (cs.filter diskEligible)) 0
  have hsub : List.Sublist (getSegmentsToClean now segmentSize cs)
      (sortBy (scoreGe now segmentSize) (cs.filter diskEligible)) := by
    rw [hr]
    exact List.sublist_append_left _ _
  refine ⟨?_, ?_, ⟨rest, hr⟩⟩
  · intro s hs
    have hmem : s ∈ cs.filter diskEligible :=
      (sortBy_perm (scoreGe now segmentSize) (cs.filter diskEligible)).mem_iff.mp
        (hsub.subset hs)
    have he := (List.mem_filter.mp hmem).2
    simp only [diskEligible, Bool.and_eq_true, decide_eq_true_eq] at he
    exact he
  · have hp := sortBy_pairwise (scoreGe now segmentSize)
      (by
        intro a b
        simp only [scoreGe, decide_eq_true_eq]
        exact le_total _ _)
      (by
        intro a b c h1 h2
        simp only [scoreGe, decide_eq_true_eq] at h1 h2 ⊢
        exact le_trans h2 h1)
      (cs.filter diskEligible)
    exact (hp.sublist hsub).imp (fun {a b} h => by
      simp only [scoreGe, decide_eq_true_eq] at h
      exact h)

/-- C3 (witness): a concrete CLEANABLE, replication-finished candidate with
no live bytes is selected, and the selected segment is not OPEN and has
finished replication. -/
theorem getSegmentsToClean_correct_witness :
    ({ id := 7, state := SegmentState.CLEANABLE, liveBytes := 0,
       segletsHeld := 1, minTimestamp := 0, replicationFinished := true } :
        LogSegment).state ≠ SegmentState.OPEN ∧
    ({ id := 7, state := SegmentState.CLEANABLE, liveBytes := 0,
       segletsHeld := 1, minTimestamp := 0, replicationFinished := true } :
        LogSegment).replicationFinished = true :=
  (getSegmentsToClean_correct 1 8
      [{ id := 7, state := SegmentState.CLEANABLE, liveBytes := 0,
         segletsHeld := 1, minTimestamp := 0,
         replicationFinished := true }]).1
    { id := 7, state := SegmentState.CLEANABLE, liveBytes := 0,
      segletsHeld := 1, minTimestamp := 0, replicationFinished := true }
    (by decide)

end RAMCloud
